import Mathlib

set_option autoImplicit false

/-!
Shallow embedding of the lightning node's core components, used to check the
natural-language specification against the code.  Each definition mirrors one
function of the source tree; definitions whose body is absent from the source
tree are marked `Modelled from the spec:` in their doc comment.
-/

namespace Lightning

/-! ### Notifier (src/core/notifier/src/lib.rs) -/

namespace Notifier

/-- Mirrors `Notifier::get_until_epoch_end`: `epoch_end.saturating_sub(now)`
in milliseconds.  Natural subtraction is saturating. -/
def get_until_epoch_end (epoch_end now : Nat) : Nat :=
  epoch_end - now

/-- Mirrors `Notifier::notify_before_epoch_change`.  The returned value is the
delay, in milliseconds, after which the single `BeforeEpochChange` notification
is sent; `none` means no task is spawned so no notification is ever sent.
The source only spawns the sleeping task when `until_epoch_end > duration`. -/
def notify_before_epoch_change (epoch_end now duration : Nat) : Option Nat :=
  let until_epoch_end := get_until_epoch_end epoch_end now
  if duration < until_epoch_end then some (until_epoch_end - duration) else none

end Notifier

/-! ### Handshake (src/core/handshake/src/handshake.rs) -/

namespace Handshake

/-- Mirrors `ConnectionEntry` (the `connection_sender` channel half is elided;
only the token and timeout participate in the verified logic).  The token is a
48-byte array, modelled as a list of bytes; `timeout` is the `u128` millisecond
timestamp. -/
structure ConnectionEntry where
  access_token : List Nat
  timeout : Nat
  deriving DecidableEq, Repr

/-- The `connections: DashMap<u64, ConnectionEntry>` registry, as a function
from connection id to an optional entry. -/
def ConnMap : Type := Nat → Option ConnectionEntry

/-- Update one key of a `ConnMap`. -/
def ConnMap.set (m : ConnMap) (k : Nat) (v : ConnectionEntry) : ConnMap :=
  fun k' => if k' = k then some v else m k'

/-- Mirrors `Context::extend_access_token`.  Arguments are the registry, the
connection id, the requested `ttl` (`u64`) and the current wall clock `now` in
milliseconds (`u128`).  Returns the updated registry together with the returned
`([u8; 48], u64)` pair.  Note the source computes `now + (ttl * 60)` — sixty,
not sixty thousand — with the multiplication performed in `u64` before the cast
to `u128`, and returns `((timeout - now) / 60) as u64`. -/
def extend_access_token (conns : ConnMap) (connection_id ttl now : Nat) :
    ConnMap × (List Nat × Nat) :=
  match conns connection_id with
  | none => (conns, (List.replicate 48 0, 0))
  | some connection =>
    let new_timeout := now + (ttl * 60) % 2 ^ 64
    let timeout' := max connection.timeout new_timeout
    let ret_ttl := ((timeout' - now) / 60) % 2 ^ 64
    (conns.set connection_id { connection with timeout := timeout' },
      (connection.access_token, ret_ttl))

/-- Big-endian interpretation of a byte list, as in `u64::from_be_bytes`. -/
def from_be_bytes (bs : List Nat) : Nat :=
  bs.foldl (fun acc b => acc * 256 + b) 0

/-- Result of processing a `HandshakeRequestFrame::JoinRequest`: either the new
transport is terminated with `InvalidToken`, or the transport pair is forwarded
on the existing connection's channel, tagged with `false` (secondary stream,
not a primary retry). -/
inductive JoinResult where
  | terminated
  | forwarded (connection_id : Nat) (is_primary : Bool)
  deriving DecidableEq, Repr

/-- Mirrors the `HandshakeRequestFrame::JoinRequest { access_token }` arm of
`Context::handle_new_connection`.  The connection id is decoded from the first
8 bytes of the 48-byte token; the request is rejected with `InvalidToken` when
the id is unknown, the stored token differs, or `connection.timeout < now`. -/
def handle_join_request (conns : ConnMap) (access_token : List Nat) (now : Nat) :
    JoinResult :=
  let connection_id := from_be_bytes (access_token.take 8)
  match conns connection_id with
  | none => .terminated
  | some connection =>
    if connection.access_token ≠ access_token then .terminated
    else if connection.timeout < now then .terminated
    else .forwarded connection_id false

end Handshake

/-! ### Resolver (src/core/resolver/src/resolver.rs) -/

namespace Resolver

/-- Mirrors `ImmutablePointer` (from `lightning_types`): an origin tag and an
opaque URI byte string. -/
structure ImmutablePointer where
  origin : Nat
  uri : List Nat
  deriving DecidableEq, Repr

/-- Mirrors `ResolvedImmutablePointerRecord` as used by the resolver: the
pointer, the 32-byte blake3 hash, the originator's 32-byte node public key and
a 64-byte signature. -/
structure ResolvedRecord where
  pointer : ImmutablePointer
  hash : List Nat
  originator : List Nat
  signature : List Nat
  deriving DecidableEq, Repr

/-- Little-endian fixed-width byte encoding of a natural number, as used by
`bincode` for `u32`/`u64` values. -/
def le_bytes (width n : Nat) : List Nat :=
  (List.range width).map fun i => n / 256 ^ i % 256

/-- Behaviour of `bincode::serialize` on an `ImmutablePointer`: the enum tag as
a `u32`, then the `u64` length prefix of the URI, then the URI bytes. -/
def serializePointer (p : ImmutablePointer) : List Nat :=
  le_bytes 4 p.origin ++ le_bytes 8 p.uri.length ++ p.uri

/-- Behaviour of `bincode::serialize` on a `ResolvedImmutablePointerRecord`:
the concatenation of the serialized fields (fixed-size byte arrays are written
raw). -/
def serializeRecord (r : ResolvedRecord) : List Nat :=
  serializePointer r.pointer ++ r.hash ++ r.originator ++ r.signature

/-- Little-endian decoding of a byte list, inverse of `le_bytes`. -/
def le_decode (bs : List Nat) : Nat :=
  bs.foldr (fun b acc => acc * 256 + b) 0

/-- Partial inverse of `serializeRecord`, the behaviour of
`bincode::deserialize::<ResolvedImmutablePointerRecord>`: parse the origin tag,
the URI length and bytes, then exactly 32 + 32 + 64 trailing bytes. -/
def deserializeRecord (bs : List Nat) : Option ResolvedRecord :=
  if bs.length < 12 then none
  else
    let origin := le_decode (bs.take 4)
    let rest := bs.drop 4
    let len := le_decode (rest.take 8)
    let body := rest.drop 8
    if body.length = len + 128 then
      some { pointer := { origin := origin, uri := body.take len },
             hash := (body.drop len).take 32,
             originator := ((body.drop len).drop 32).take 32,
             signature := body.drop (len + 64) }
    else none

/-- The resolver's rocksdb instance: the `b3_to_uri` column family is modelled
at the record level (its values always round-trip through `bincode` inside
`store_mapping`/`get_origins`), while the `uri_to_b3` column family is kept at
the byte level, since `store_mapping` and `get_blake3_hash` disagree on its
key format. -/
structure Db where
  b3_to_uri : List (List Nat × List ResolvedRecord)
  uri_to_b3 : List (List Nat × List Nat)
  deriving DecidableEq, Repr

/-- Association-list lookup standing in for `DB::get_cf`. -/
def lookup (l : List (List Nat × List Nat)) (k : List Nat) : Option (List Nat) :=
  (l.find? (fun e => e.1 = k)).map (·.2)

/-- Association-list lookup for the record-level column family. -/
def lookupRecords (l : List (List Nat × List ResolvedRecord)) (k : List Nat) :
    Option (List ResolvedRecord) :=
  (l.find? (fun e => e.1 = k)).map (·.2)

/-- Association-list insert standing in for `DB::put_cf` (overwrites). -/
def putBytes (l : List (List Nat × List Nat)) (k v : List Nat) :
    List (List Nat × List Nat) :=
  (k, v) :: l.filter (fun e => ¬ e.1 = k)

/-- Association-list insert for the record-level column family. -/
def putRecords (l : List (List Nat × List ResolvedRecord)) (k : List Nat)
    (v : List ResolvedRecord) : List (List Nat × List ResolvedRecord) :=
  (k, v) :: l.filter (fun e => ¬ e.1 = k)

/-- Mirrors `ResolverInner::store_mapping`: read the existing record list for
the hash, append the record unless a record with the same pointer is present,
write the list back under `b3_to_uri`, and write the raw 32-byte hash under
`uri_to_b3` — keyed, as in the source, by the serialized *record*
(`resolved_pointer_bytes = bincode::serialize(&record)`). -/
def store_mapping (record : ResolvedRecord) (db : Db) : Db :=
  let entry :=
    match lookupRecords db.b3_to_uri record.hash with
    | some uris => if uris.any (fun x => x.pointer = record.pointer) then uris
                   else uris ++ [record]
    | none => [record]
  { b3_to_uri := putRecords db.b3_to_uri record.hash entry,
    uri_to_b3 := putBytes db.uri_to_b3 (serializeRecord record) record.hash }

/-- Mirrors `ResolverInner::publish`: when the pointer list is non-empty, build
the record for `pointers[0]`, call `store_mapping` once for it, and send one
pubsub record per pointer (the sent records are returned as the second
component; they do not touch the local database). -/
def publish (ourPk : List Nat) (hash : List Nat) (pointers : List ImmutablePointer)
    (db : Db) : Db × List ResolvedRecord :=
  match pointers with
  | [] => (db, [])
  | p0 :: _ =>
    let record0 : ResolvedRecord :=
      { pointer := p0, hash := hash, originator := ourPk,
        signature := List.replicate 64 0 }
    (store_mapping record0 db,
      pointers.map fun p => { record0 with pointer := p })

/-- Mirrors `ResolverInner::get_blake3_hash`: look the serialized *pointer* up
in `uri_to_b3` and deserialize the stored value as a full record. -/
def get_blake3_hash (pointer : ImmutablePointer) (db : Db) :
    Option ResolvedRecord :=
  (lookup db.uri_to_b3 (serializePointer pointer)).bind deserializeRecord

/-- The empty resolver database. -/
def Db.empty : Db := ⟨[], []⟩

end Resolver

/-! ### Broadcast event loop (src/core/broadcast/src/ev.rs) -/

namespace Broadcast

/-- Mirrors `Topic` with its three variants. -/
inductive Topic where
  | consensus
  | distributedHashTable
  | debug
  deriving DecidableEq, Repr

/-- Mirrors the broadcast `Message` frame: origin node index, signature over
the message digest, topic, timestamp and payload. -/
structure Message where
  origin : Nat
  signature : List Nat
  topic : Topic
  timestamp : Nat
  payload : List Nat
  deriving DecidableEq, Repr

/-- Mirrors `Advr { interned_id, digest }`. -/
structure Advr where
  interned_id : Nat
  digest : List Nat
  deriving DecidableEq, Repr

/-- Mirrors `SharedMessage { digest, origin, payload }`, the value inserted
into a topic's receive ring. -/
structure SharedMessage where
  digest : List Nat
  origin : Nat
  payload : List Nat
  deriving DecidableEq, Repr

/-- An outgoing frame of the gossip protocol, as far as the verified handlers
can emit one. -/
inductive OutFrame where
  | want (interned_id : Nat)
  deriving DecidableEq, Repr

/-- Pure views of the collaborators the event loop consults: the application's
query runner (`index_to_pubkey`), the node-index resolution used by
`get_node_index` (peer table with query-runner fallback), signature
verification, and the `ToDigest` transcript of a message. -/
structure Env where
  index_to_pubkey : Nat → Option (List Nat)
  pubkey_to_index : List Nat → Option Nat
  verify : List Nat → List Nat → List Nat → Bool
  to_digest : Message → List Nat

/-- Observable state of the event loop touched by the verified handlers: the
per-peer invalid-message counters (`Stats`), the three topic receive rings,
and the set of digests the node has seen (database/interner). -/
structure EvState where
  invalid_messages_received_from_peer : Nat → Nat
  ring_consensus : List SharedMessage
  ring_distributedHashTable : List SharedMessage
  ring_debug : List SharedMessage
  seen_digests : List (List Nat)

/-- Modelled from the spec: `Stats::report` (src/core/broadcast/src/stats.rs is
not in the tree) accumulates the reported `ConnectionStats` counters per peer;
reporting `invalid_messages_received_from_peer: 1` increments that peer's
counter by one. -/
def report_invalid (st : EvState) (index : Nat) : EvState :=
  { st with
    invalid_messages_received_from_peer := fun j =>
      if j = index then st.invalid_messages_received_from_peer j + 1
      else st.invalid_messages_received_from_peer j }

/-- Modelled from the spec: `RecvBuffer::insert` (src/core/broadcast/src/ring.rs
is not in the tree) appends the verified message to the topic's receive ring;
the bounded-capacity eviction is elided, the sequence of inserted messages is
recorded. -/
def ring_insert (st : EvState) (t : Topic) (m : SharedMessage) : EvState :=
  match t with
  | .consensus => { st with ring_consensus := st.ring_consensus ++ [m] }
  | .distributedHashTable =>
      { st with ring_distributedHashTable := st.ring_distributedHashTable ++ [m] }
  | .debug => { st with ring_debug := st.ring_debug ++ [m] }

/-- Mirrors `Context::handle_message`.  `none` models the panic of
`self.get_node_index(&sender).unwrap()` when the delivering peer is unknown;
otherwise the new state is returned.  The origin index is resolved to a public
key; on failure, or when the signature over the message digest does not
verify, the sender's invalid counter is bumped and nothing is inserted; on
success the shared message enters the ring of its topic. -/
def handle_message (env : Env) (st : EvState) (sender : List Nat) (msg : Message) :
    Option EvState :=
  match env.index_to_pubkey msg.origin with
  | none =>
    match env.pubkey_to_index sender with
    | none => none
    | some index => some (report_invalid st index)
  | some origin_pk =>
    let digest := env.to_digest msg
    if ¬ env.verify origin_pk msg.signature digest then
      match env.pubkey_to_index sender with
      | none => none
      | some index => some (report_invalid st index)
    else
      some (ring_insert st msg.topic
        { digest := digest, origin := msg.origin, payload := msg.payload })

/-- Mirrors `Context::handle_advr` verbatim: the source body is empty, so the
state is returned unchanged and no frame is emitted. -/
def handle_advr (st : EvState) (_sender : List Nat) (_advr : Advr) :
    EvState × List OutFrame :=
  (st, [])

/-- The receive ring of a topic, used to state which ring a message entered. -/
def EvState.ring (st : EvState) : Topic → List SharedMessage
  | .consensus => st.ring_consensus
  | .distributedHashTable => st.ring_distributedHashTable
  | .debug => st.ring_debug

end Broadcast

/-! ### Incremental verifier (src/lib/b3fs/src/verifier/mod.rs) -/

namespace B3fs

/-- Mirrors `VerificationError`. -/
inductive VError where
  | invalidProofSize
  | invalidProofWalk
  | hashMismatch (got expected : Nat)
  | terminated
  deriving DecidableEq, Repr

/-- The domain-separated blake3 merge, `IV::merge(left, right, is_root)`,
abstracted: hashes are opaque values. -/
structure HashAlgo where
  merge : Nat → Nat → Bool → Nat

/-- The proof buffer layer (`is_valid_proof_len` and `ProofBufIter`, from
crate::utils and crate::proof, not in the tree), abstracted: a length validity
predicate and a decoder yielding the `(should_flip, hash)` walk. -/
structure ProofCodec where
  is_valid_proof_len : Nat → Bool
  decode : List Nat → List (Bool × Nat)

/-- Mirrors `IncrementalVerifier`: the hash stack (first-pushed element at the
head of the list), the merge depth `parent_count`, and the collector's counter
(`storage.counter()`, zero and unused when not collecting). -/
structure Verifier where
  parent_count : Nat
  counter : Nat
  stack : List Nat
  deriving DecidableEq, Repr

/-- Mirrors `IncrementalVerifier::is_root`. -/
def is_root (collect : Bool) (v : Verifier) : Bool :=
  v.stack.length == 1 &&
    (if collect then v.counter == 0 else v.parent_count == 0)

/-- Mirrors `IncrementalVerifier::is_finished`. -/
def is_finished (collect : Bool) (v : Verifier) : Bool :=
  if collect then v.stack.length == v.parent_count else v.stack.isEmpty

/-- The `ArrayVec::swap(0, 1)` of the two-slot proof stack; positions beyond
the second never exist at the call sites (capacity is two). -/
def swap01 : List Nat → List Nat
  | a :: b :: rest => b :: a :: rest
  | l => l

/-- The loop of `feed_proof_internal` over the decoded proof walk.  The local
two-slot stack `inner` keeps its first-pushed element at the head.  On
`InvalidProofWalk` the partially mutated verifier is returned with the error,
exactly as the Rust `self` keeps its mutations until the caller reverts. -/
def feedLoop (algo : HashAlgo) (collect : Bool) :
    List (Bool × Nat) → Nat → List Nat → Verifier →
    Except (VError × Verifier) (List Nat × Verifier)
  | [], _, inner, v => .ok (inner, v)
  | (should_flip, h) :: rest, i, inner, v =>
    let step : List Nat × Verifier :=
      match inner with
      | [left, right] =>
        let m := algo.merge left right false
        if collect then
          ([m], { v with stack := v.stack ++ [m],
                         parent_count := v.parent_count + 1 })
        else ([m], v)
      | _ => (inner, v)
    let inner2 := step.1 ++ [h]
    if should_flip then
      if collect || i == 0 then .error (.invalidProofWalk, step.2)
      else feedLoop algo collect rest (i + 1) (swap01 inner2) step.2
    else
      feedLoop algo collect rest (i + 1) inner2
        { step.2 with stack := step.2.stack ++ [h] }

/-- Mirrors `feed_proof_internal`.  `none` models the `pop().unwrap()` panic
when the final proof stack does not hold two hashes; otherwise the (partially)
mutated verifier is returned together with the error, if any. -/
def feed_proof_internal (algo : HashAlgo) (collect isRoot : Bool)
    (expected : Nat) (entries : List (Bool × Nat)) (v : Verifier) :
    Option (Verifier × Option VError) :=
  match feedLoop algo collect entries 0 [] v with
  | .error (e, v') => some (v', some e)
  | .ok (inner, v') =>
    match inner with
    | [left, right] =>
      let h := algo.merge left right isRoot
      let v'' := { v' with
        parent_count := if collect then v'.parent_count + 1 else 1 }
      if h == expected then some (v'', none)
      else some (v'', some (.hashMismatch h expected))
    | _ => none

/-- Mirrors `IncrementalVerifier::feed_proof`: the early `Terminated`, empty
proof and `InvalidProofSize` paths, the pop (or peek, when collecting) of the
expected hash, the call into `feed_proof_internal`, and the explicit rollback
on error — restore `parent_count`, truncate the stack to its pre-call length
and, when not collecting, push the expected hash back.  On success the stack
extension is reversed in place.  `none` models a panic. -/
def feed_proof (algo : HashAlgo) (codec : ProofCodec) (collect : Bool)
    (v : Verifier) (proof : List Nat) : Option (Verifier × Option VError) :=
  if is_finished collect v then some (v, some .terminated)
  else if proof.isEmpty then some (v, none)
  else if ¬ codec.is_valid_proof_len proof.length then
    some (v, some .invalidProofSize)
  else
    let isRoot := is_root collect v
    match v.stack.getLast? with
    | none => none
    | some expected =>
      let v1 := if collect then v else { v with stack := v.stack.dropLast }
      let oldLen := v1.stack.length
      let oldPc := v1.parent_count
      match feed_proof_internal algo collect isRoot expected
          (codec.decode proof) v1 with
      | none => none
      | some (v2, some e) =>
        some ({ v2 with parent_count := oldPc,
                        stack := v2.stack.take oldLen ++
                          (if collect then [] else [expected]) }, some e)
      | some (v2, none) =>
        some ({ v2 with stack := v2.stack.take oldLen ++
                          (v2.stack.drop oldLen).reverse }, none)

end B3fs

/-! ### Application state & executor (src/core/application; only tests.rs is
in the tree, so the executor itself is modelled from the spec, §4.C) -/

namespace App

/-- Revert reasons of the modelled update methods (spec §7 taxonomy). -/
inductive ExecutionError where
  | InvalidSignature
  | InvalidNonce
  | NotCommitteeMember
  | EpochAlreadyChanged
  | EpochHasNotStarted
  deriving DecidableEq, Repr

/-- A transaction receipt response: success or a revert carried in the
receipt. -/
inductive TxnResponse where
  | success
  | revert (err : ExecutionError)
  deriving DecidableEq, Repr

/-- The epoch-related slice of the application state: current epoch, the
current committee's node indices, and the set of distinct epoch-change
signalers (kept as a duplicate-free list). -/
structure EpochState where
  epoch : Nat
  committee : List Nat
  signals : List Nat
  deriving DecidableEq, Repr

/-- The quorum threshold `⌊2·|C|/3⌋ + 1` for an epoch change. -/
def epoch_change_threshold (committee_size : Nat) : Nat :=
  2 * committee_size / 3 + 1

/-- Modelled from the spec: the `ChangeEpoch { epoch }` semantics of the
application executor (src/core/application/src/state.rs is not in the tree).
Per §4.C: accepted only from current committee members and only when the
argument equals the current epoch (a larger epoch reverts with
`EpochHasNotStarted`, as `test_validate_txn` expects); idempotent per sender;
when the distinct signalers reach the threshold the epoch advances at that
transaction and the signal set resets.  Returns the new epoch state, the
receipt response and the `change_epoch` flag. -/
def change_epoch (s : EpochState) (sender epoch_arg : Nat) :
    EpochState × TxnResponse × Bool :=
  if sender ∈ s.committee then
    if epoch_arg < s.epoch then (s, .revert .EpochAlreadyChanged, false)
    else if s.epoch < epoch_arg then (s, .revert .EpochHasNotStarted, false)
    else
      let signals' := if sender ∈ s.signals then s.signals
                      else s.signals ++ [sender]
      if epoch_change_threshold s.committee.length ≤ signals'.length then
        ({ epoch := s.epoch + 1, committee := s.committee, signals := [] },
          .success, true)
      else ({ s with signals := signals' }, .success, false)
  else (s, .revert .NotCommitteeMember, false)

/-- The modelled update methods. -/
inductive Method where
  | changeEpoch (epoch : Nat)
  | deposit (amount : Nat)
  deriving DecidableEq, Repr

/-- An `UpdateRequest` after signature checking is abstracted: the sender's
index, the payload nonce, whether the signature verifies over the payload
digest, and the method. -/
structure UpdateTxn where
  sender : Nat
  nonce : Nat
  sig_valid : Bool
  method : Method
  deriving DecidableEq, Repr

/-- The application state the modelled methods touch. -/
structure AppState where
  es : EpochState
  nonces : List (Nat × Nat)
  balances : List (Nat × Nat)
  deriving DecidableEq, Repr

/-- Current nonce of an account (zero when absent). -/
def getNonce (s : AppState) (a : Nat) : Nat :=
  ((s.nonces.find? (fun e => e.1 = a)).map (·.2)).getD 0

/-- Store an account's nonce. -/
def setNonce (s : AppState) (a n : Nat) : AppState :=
  { s with nonces := (a, n) :: s.nonces.filter (fun e => ¬ e.1 = a) }

/-- Current FLK balance of an account (zero when absent). -/
def getBalance (s : AppState) (a : Nat) : Nat :=
  ((s.balances.find? (fun e => e.1 = a)).map (·.2)).getD 0

/-- Store an account's FLK balance. -/
def setBalance (s : AppState) (a n : Nat) : AppState :=
  { s with balances := (a, n) :: s.balances.filter (fun e => ¬ e.1 = a) }

/-- Modelled from the spec: transaction execution (§4.C).  Signature and nonce
are checked first (`InvalidSignature`, `InvalidNonce`); on a method revert the
method's state changes are rolled back but the nonce stays consumed.  Returns
the new state, the receipt response and the `change_epoch` flag. -/
def execute_txn (s : AppState) (t : UpdateTxn) :
    AppState × TxnResponse × Bool :=
  if ¬ t.sig_valid then (s, .revert .InvalidSignature, false)
  else if t.nonce ≠ getNonce s t.sender + 1 then
    (s, .revert .InvalidNonce, false)
  else
    let s1 := setNonce s t.sender t.nonce
    match t.method with
    | .changeEpoch e =>
      match change_epoch s1.es t.sender e with
      | (es', .success, flag) => ({ s1 with es := es' }, .success, flag)
      | (_, .revert err, _) => (s1, .revert err, false)
    | .deposit amount =>
      (setBalance s1 t.sender (getBalance s1 t.sender + amount),
        .success, false)

/-- Modelled from the spec: block execution over the execution socket — the
transactions run in order, their receipts are collected, and the block
response's `change_epoch` is set when some transaction advanced the epoch. -/
def execute_block (s : AppState) (txns : List UpdateTxn) :
    AppState × List TxnResponse × Bool :=
  match txns with
  | [] => (s, [], false)
  | t :: rest =>
    match execute_txn s t with
    | (s1, r, flag) =>
      match execute_block s1 rest with
      | (s2, rs, flag2) => (s2, r :: rs, flag || flag2)

/-- Modelled from the spec: the query runner's `validate_txn`, which must
"return the exact receipt that actual execution would produce at this
snapshot" (§4.C) — written as an independent checking pipeline that performs
the validation steps against the snapshot without committing any state. -/
def validate_txn (s : AppState) (t : UpdateTxn) : TxnResponse :=
  if ¬ t.sig_valid then .revert .InvalidSignature
  else if t.nonce ≠ getNonce s t.sender + 1 then .revert .InvalidNonce
  else
    match t.method with
    | .changeEpoch e =>
      if t.sender ∈ s.es.committee then
        if e < s.es.epoch then .revert .EpochAlreadyChanged
        else if s.es.epoch < e then .revert .EpochHasNotStarted
        else .success
      else .revert .NotCommitteeMember
    | .deposit _ => .success

/-- One fixed-point unit of `HpUfixed<18>`. -/
def hpU : Nat := 10 ^ 18

/-- Truncating `HpUfixed<18>` multiplication. -/
def hpMul (a b : Nat) : Nat := a * b / hpU

/-- Truncating `HpUfixed<18>` division. -/
def hpDiv (a b : Nat) : Nat := a * hpU / b

/-- A percentage protocol parameter as an `HpUfixed<18>` fraction,
`HpUfixed::from(x) / HpUfixed::from(100)`. -/
def share (x : Nat) : Nat := hpDiv (x * hpU) (100 * hpU)

/-- Modelled from the spec: `emissions := inflation · supply_year_start / 365`
with `inflation = max_inflation / 100`, in `HpUfixed<18>` arithmetic (§4.C
step 2). -/
def emissions (max_inflation supply_year_start : Nat) : Nat :=
  hpDiv (hpMul (share max_inflation) supply_year_start) (365 * hpU)

/-- Modelled from the spec: each node's FLK reward
`emissions·node_share · weight(n) / Σ weight(k)` where
`weight(n) = served(n)·boost(n)` (§4.C step 3); the division is performed
last. -/
def node_rewards (En : Nat) (weights : List Nat) : List Nat :=
  weights.map fun w => En * w / weights.sum

/-- Modelled from the spec: each service builder's FLK reward
`emissions·service_share · service_proportion[s]` (§4.C step 5), with the
proportion `served(s) / Σ served` applied with the division last. -/
def service_rewards (Es : Nat) (served : List Nat) : List Nat :=
  served.map fun c => Es * c / served.sum

/-- The supply-related metadata rows. -/
structure RewardsState where
  epoch : Nat
  total_supply : Nat
  supply_year_start : Nat
  deriving DecidableEq, Repr

/-- The protocol parameters of the reward distribution, as percentages. -/
structure RewardsParams where
  max_inflation : Nat
  node_share : Nat
  protocol_share : Nat
  service_builder_share : Nat
  deriving DecidableEq, Repr

/-- Modelled from the spec: the FLK side of the epoch-transition reward
distribution (§4.C steps 2–6): mint each node's reward, the protocol fund's
`emissions·protocol_share`, and each service builder's share; add the total
minted amount to `total_supply`; every 365th epoch set `supply_year_start` to
the new total supply.  Returns the new state and the total minted. -/
def distribute_rewards (p : RewardsParams)
    (node_weights service_served : List Nat) (s : RewardsState) :
    RewardsState × Nat :=
  let E := emissions p.max_inflation s.supply_year_start
  let En := hpMul E (share p.node_share)
  let Ep := hpMul E (share p.protocol_share)
  let Es := hpMul E (share p.service_builder_share)
  let minted := (node_rewards En node_weights).sum + Ep +
    (service_rewards Es service_served).sum
  let total' := s.total_supply + minted
  ({ epoch := s.epoch + 1,
     total_supply := total',
     supply_year_start := if (s.epoch + 1) % 365 = 0 then total'
                          else s.supply_year_start }, minted)

end App

namespace B3fs

/-- The verifier carried by either outcome of `feedLoop`. -/
def resultVerifier :
    Except (VError × Verifier) (List Nat × Verifier) → Verifier
  | .error (_, v) => v
  | .ok (_, v) => v

/-- The mutations `feed_proof_internal` performs on the verifier: the
collector counter is untouched and the hash stack only grows by appending. -/
def Extends (v v' : Verifier) : Prop :=
  v'.counter = v.counter ∧ ∃ ext, v'.stack = v.stack ++ ext

end B3fs

end Lightning

/-! ## Theorems -/

namespace Lightning

/-- C10: for every call to `notify_before_epoch_change(duration, tx)`, if
`duration` is strictly below the remaining time until the epoch end then
exactly one `BeforeEpochChange` notification is scheduled, after
`remaining - duration` milliseconds; if `duration` is at least the remaining
time, no notification is ever sent. -/
theorem notify_before_epoch_change_spec (epoch_end now duration : Nat) :
    (duration < epoch_end - now →
      Notifier.notify_before_epoch_change epoch_end now duration =
        some (epoch_end - now - duration)) ∧
    (epoch_end - now ≤ duration →
      Notifier.notify_before_epoch_change epoch_end now duration = none) := by
  constructor
  · intro h
    simp [Notifier.notify_before_epoch_change, Notifier.get_until_epoch_end, h]
  · intro h
    simp [Notifier.notify_before_epoch_change, Notifier.get_until_epoch_end,
      Nat.not_lt.mpr h]

/-- Witness for C10 at a concrete input: with 3000 ms remaining a request for
1000 ms fires after 2000 ms, while a request for 3000 ms never fires. -/
theorem notify_before_epoch_change_spec_witness :
    Notifier.notify_before_epoch_change 3000 0 1000 = some 2000 ∧
    Notifier.notify_before_epoch_change 3000 0 3000 = none :=
  ⟨(notify_before_epoch_change_spec 3000 0 1000).1 (by decide),
   (notify_before_epoch_change_spec 3000 0 3000).2 (by decide)⟩

/-- C8 counterexample: for the registered connection id `0` with stored timeout
`0`, calling `extend_access_token(0, ttl := 1)` at `now = 1000` stores the
timeout `1060 = max 0 (1000 + 1·60)`, which is not the claimed
`max 0 (1000 + 1·60_000) = 61000`. -/
theorem extend_access_token_claim_false :
    ((Handshake.extend_access_token
        (fun k => if k = 0 then some ⟨List.replicate 48 7, 0⟩ else none)
        0 1 1000).1 0 =
      some ⟨List.replicate 48 7, 1060⟩) ∧ (1060 : Nat) ≠ max 0 (1000 + 1 * 60000) := by
  constructor
  · rfl
  · decide

/-- C8 as amended: `extend_access_token(id, ttl)` on a registered connection
updates the stored timeout to `max(old_timeout, now + (ttl·60 mod 2^64))`
milliseconds (the source multiplies the ttl by sixty, not sixty thousand),
leaves every other connection untouched, and returns the stored 48-byte access
token together with `((new_timeout - now) / 60) mod 2^64`. -/
theorem extend_access_token_correct (conns : Handshake.ConnMap)
    (id ttl now : Nat) (entry : Handshake.ConnectionEntry)
    (h : conns id = some entry) :
    ((Handshake.extend_access_token conns id ttl now).1 id =
      some { entry with timeout := max entry.timeout (now + ttl * 60 % 2 ^ 64) }) ∧
    (∀ k, k ≠ id → (Handshake.extend_access_token conns id ttl now).1 k = conns k) ∧
    (Handshake.extend_access_token conns id ttl now).2 =
      (entry.access_token,
        (max entry.timeout (now + ttl * 60 % 2 ^ 64) - now) / 60 % 2 ^ 64) := by
  refine ⟨?_, ?_, ?_⟩ <;>
    simp [Handshake.extend_access_token, h, Handshake.ConnMap.set]
  intro k hk
  simp [hk]

/-- Witness for C8's amended theorem at a concrete registered connection. -/
theorem extend_access_token_correct_witness :
    ((Handshake.extend_access_token
        (fun k => if k = 0 then some ⟨List.replicate 48 7, 2000⟩ else none)
        0 1 1000).1 0 =
      some ⟨List.replicate 48 7, max 2000 (1000 + 1 * 60 % 2 ^ 64)⟩) ∧
    (∀ k, k ≠ 0 →
      (Handshake.extend_access_token
        (fun k => if k = 0 then some ⟨List.replicate 48 7, 2000⟩ else none)
        0 1 1000).1 k =
      (fun k => if k = 0 then some ⟨List.replicate 48 7, 2000⟩ else none) k) ∧
    (Handshake.extend_access_token
        (fun k => if k = 0 then some ⟨List.replicate 48 7, 2000⟩ else none)
        0 1 1000).2 =
      (List.replicate 48 7, (max 2000 (1000 + 1 * 60 % 2 ^ 64) - 1000) / 60 % 2 ^ 64) :=
  extend_access_token_correct _ 0 1 1000 ⟨List.replicate 48 7, 2000⟩ (by decide)

/-- C9 counterexample: a join request whose token matches the registered
connection `0` and arrives exactly at `now = timeout = 500` satisfies the
claim's rejection condition `now ≥ timeout`, yet the source forwards the
transport pair instead of terminating it (the source only rejects when
`timeout < now`). -/
theorem handle_join_request_claim_false :
    (500 : Nat) ≥ 500 ∧
    Handshake.handle_join_request
      (fun k => if k = 0 then
        some ⟨List.replicate 8 0 ++ List.replicate 40 3, 500⟩ else none)
      (List.replicate 8 0 ++ List.replicate 40 3) 500 =
      .forwarded 0 false := by
  exact ⟨le_refl 500, by decide⟩

/-- C5: for every `Message` frame from a delivering peer that resolves to
index `i`: when the origin index does not resolve to a public key, or the
origin's signature fails to verify over the message digest, the peer's
`invalid_messages_received_from_peer` counter is incremented by one and no
receive ring changes; when verification succeeds the shared message is
appended to the ring of its topic and every counter is unchanged. -/
theorem handle_message_spec (env : Broadcast.Env) (st : Broadcast.EvState)
    (sender : List Nat) (msg : Broadcast.Message) (i : Nat)
    (hi : env.pubkey_to_index sender = some i) :
    (env.index_to_pubkey msg.origin = none →
      ∃ st', Broadcast.handle_message env st sender msg = some st' ∧
        st'.invalid_messages_received_from_peer i =
          st.invalid_messages_received_from_peer i + 1 ∧
        (∀ j, j ≠ i → st'.invalid_messages_received_from_peer j =
          st.invalid_messages_received_from_peer j) ∧
        (∀ t, st'.ring t = st.ring t)) ∧
    (∀ pk, env.index_to_pubkey msg.origin = some pk →
      env.verify pk msg.signature (env.to_digest msg) = false →
      ∃ st', Broadcast.handle_message env st sender msg = some st' ∧
        st'.invalid_messages_received_from_peer i =
          st.invalid_messages_received_from_peer i + 1 ∧
        (∀ j, j ≠ i → st'.invalid_messages_received_from_peer j =
          st.invalid_messages_received_from_peer j) ∧
        (∀ t, st'.ring t = st.ring t)) ∧
    (∀ pk, env.index_to_pubkey msg.origin = some pk →
      env.verify pk msg.signature (env.to_digest msg) = true →
      ∃ st', Broadcast.handle_message env st sender msg = some st' ∧
        (∀ j, st'.invalid_messages_received_from_peer j =
          st.invalid_messages_received_from_peer j) ∧
        st'.ring msg.topic = st.ring msg.topic ++
          [⟨env.to_digest msg, msg.origin, msg.payload⟩] ∧
        (∀ t, t ≠ msg.topic → st'.ring t = st.ring t)) := by
  refine ⟨?_, ?_, ?_⟩
  · intro h
    refine ⟨Broadcast.report_invalid st i, ?_, ?_, ?_, ?_⟩
    · simp [Broadcast.handle_message, h, hi]
    · simp [Broadcast.report_invalid]
    · intro j hj; simp [Broadcast.report_invalid, hj]
    · intro t; cases t <;> rfl
  · intro pk hpk hv
    refine ⟨Broadcast.report_invalid st i, ?_, ?_, ?_, ?_⟩
    · simp [Broadcast.handle_message, hpk, hv, hi]
    · simp [Broadcast.report_invalid]
    · intro j hj; simp [Broadcast.report_invalid, hj]
    · intro t; cases t <;> rfl
  · intro pk hpk hv
    refine ⟨Broadcast.ring_insert st msg.topic
      ⟨env.to_digest msg, msg.origin, msg.payload⟩, ?_, ?_, ?_, ?_⟩
    · simp [Broadcast.handle_message, hpk, hv]
    · intro j; cases h : msg.topic <;> simp [Broadcast.ring_insert, h]
    · cases h : msg.topic <;>
        simp [Broadcast.ring_insert, Broadcast.EvState.ring, h]
    · intro t ht
      cases h : msg.topic <;> rw [h] at ht <;> cases t <;>
        simp_all [Broadcast.ring_insert, Broadcast.EvState.ring]

/-- Witness for C5 at a concrete environment and state: an unresolvable origin
bumps the counter, and a verified message enters its topic's ring. -/
theorem handle_message_spec_witness :
    (∃ st', Broadcast.handle_message
        ⟨fun _ => none, fun pk => if pk = [1] then some 5 else none,
          fun _ _ _ => true, fun _ => [9]⟩
        ⟨fun _ => 0, [], [], [], []⟩ [1] ⟨7, [4], .consensus, 0, [8]⟩ = some st' ∧
      st'.invalid_messages_received_from_peer 5 = 0 + 1 ∧
      (∀ j, j ≠ 5 → st'.invalid_messages_received_from_peer j = 0) ∧
      (∀ t, st'.ring t = Broadcast.EvState.ring ⟨fun _ => 0, [], [], [], []⟩ t)) ∧
    (∃ st', Broadcast.handle_message
        ⟨fun _ => some [2], fun pk => if pk = [1] then some 5 else none,
          fun _ _ _ => true, fun _ => [9]⟩
        ⟨fun _ => 0, [], [], [], []⟩ [1] ⟨7, [4], .consensus, 0, [8]⟩ = some st' ∧
      (∀ j, st'.invalid_messages_received_from_peer j = 0) ∧
      st'.ring .consensus =
        Broadcast.EvState.ring ⟨fun _ => 0, [], [], [], []⟩ .consensus ++
          [⟨[9], 7, [8]⟩] ∧
      (∀ t, t ≠ Broadcast.Topic.consensus →
        st'.ring t = Broadcast.EvState.ring ⟨fun _ => 0, [], [], [], []⟩ t)) :=
  ⟨(handle_message_spec ⟨fun _ => none, fun pk => if pk = [1] then some 5 else none,
      fun _ _ _ => true, fun _ => [9]⟩
      ⟨fun _ => 0, [], [], [], []⟩ [1] ⟨7, [4], .consensus, 0, [8]⟩ 5 rfl).1 rfl,
   (handle_message_spec ⟨fun _ => some [2], fun pk => if pk = [1] then some 5 else none,
      fun _ _ _ => true, fun _ => [9]⟩
      ⟨fun _ => 0, [], [], [], []⟩ [1] ⟨7, [4], .consensus, 0, [8]⟩ 5 rfl).2.2 [2] rfl rfl⟩

/-- C7: the claim is the spec's intended semantics for `Advr` frames, but the
source's `handle_advr` has an empty body — evaluated at a concrete state whose
database has never seen the advertised digest, it records nothing and sends no
`Want` frame. -/
theorem handle_advr_stub_bug :
    Broadcast.handle_advr ⟨fun _ => 0, [], [], [], []⟩ [1] ⟨5, [9, 9]⟩ =
      (⟨fun _ => 0, [], [], [], []⟩, []) ∧
    [9, 9] ∉ Broadcast.EvState.seen_digests ⟨fun _ => 0, [], [], [], []⟩ := by
  exact ⟨rfl, by simp⟩

theorem B3fs.extends_refl (v : B3fs.Verifier) : B3fs.Extends v v :=
  ⟨rfl, [], by simp⟩

theorem B3fs.extends_trans {a b c : B3fs.Verifier}
    (h1 : B3fs.Extends a b) (h2 : B3fs.Extends b c) : B3fs.Extends a c := by
  obtain ⟨hc1, e1, hs1⟩ := h1
  obtain ⟨hc2, e2, hs2⟩ := h2
  exact ⟨hc2.trans hc1, e1 ++ e2, by rw [hs2, hs1, List.append_assoc]⟩

theorem B3fs.extends_append (v : B3fs.Verifier) (pc : Nat) (l : List Nat) :
    B3fs.Extends v ⟨pc, v.counter, v.stack ++ l⟩ :=
  ⟨rfl, l, rfl⟩

/-- Every path of `feedLoop` leaves the collector counter alone and only
appends to the verifier's hash stack. -/
theorem B3fs.feedLoop_inv (algo : B3fs.HashAlgo) (collect : Bool) :
    ∀ (entries : List (Bool × Nat)) (i : Nat) (inner : List Nat)
      (v : B3fs.Verifier),
      B3fs.Extends v
        (B3fs.resultVerifier (B3fs.feedLoop algo collect entries i inner v)) := by
  intro entries
  induction entries with
  | nil =>
    intro i inner v
    exact B3fs.extends_refl v
  | cons hd rest ih =>
    obtain ⟨flip, h⟩ := hd
    intro i inner v
    rcases inner with _ | ⟨a, _ | ⟨b, _ | ⟨c, t⟩⟩⟩ <;>
      cases collect <;> cases flip <;>
      simp [B3fs.feedLoop, B3fs.swap01, List.append_assoc] <;>
      (try split) <;>
      first
      | exact B3fs.extends_refl v
      | exact B3fs.extends_append v _ _
      | exact ih _ _ _
      | exact B3fs.extends_trans (B3fs.extends_append v _ _) (ih _ _ _)

/-- `feed_proof_internal` leaves the collector counter alone and only appends
to the verifier's hash stack, whether it succeeds or fails. -/
theorem B3fs.feed_proof_internal_extends (algo : B3fs.HashAlgo)
    (collect isRoot : Bool) (expected : Nat) (entries : List (Bool × Nat))
    (v1 v2 : B3fs.Verifier) (oe : Option B3fs.VError)
    (h : B3fs.feed_proof_internal algo collect isRoot expected entries v1 =
      some (v2, oe)) : B3fs.Extends v1 v2 := by
  have hinv := B3fs.feedLoop_inv algo collect entries 0 [] v1
  unfold B3fs.feed_proof_internal at h
  split at h
  · rename_i e vv heq
    rw [heq] at hinv
    simp only [B3fs.resultVerifier] at hinv
    simp only [Option.some.injEq, Prod.mk.injEq] at h
    exact h.1 ▸ hinv
  · rename_i inner vv heq
    rw [heq] at hinv
    simp only [B3fs.resultVerifier] at hinv
    split at h
    · split at h <;> (try dsimp only at h) <;> split at h <;>
        simp only [Option.some.injEq, Prod.mk.injEq] at h <;>
        exact h.1 ▸ ⟨hinv.1, hinv.2⟩
    · exact absurd h (by simp)

/-- C4: whenever `feed_proof` returns an error — `Terminated`,
`InvalidProofSize`, `InvalidProofWalk` or `HashMismatch` — the verifier's hash
stack, parent count and collector counter are exactly what they were before
the call: the rollback is complete and the caller may retry. -/
theorem feed_proof_error_rollback (algo : B3fs.HashAlgo)
    (codec : B3fs.ProofCodec) (collect : Bool) (v : B3fs.Verifier)
    (proof : List Nat) (v' : B3fs.Verifier) (e : B3fs.VError)
    (h : B3fs.feed_proof algo codec collect v proof = some (v', some e)) :
    v' = v := by
  cases collect with
  | true =>
    unfold B3fs.feed_proof at h
    simp only [reduceIte] at h
    split at h
    · simp only [Option.some.injEq, Prod.mk.injEq] at h
      exact h.1.symm
    · split at h
      · simp only [Option.some.injEq, Prod.mk.injEq] at h
        exact absurd h.2 (by simp)
      · split at h
        · simp only [Option.some.injEq, Prod.mk.injEq] at h
          exact h.1.symm
        · split at h
          · exact absurd h (by simp)
          · rename_i expected hlast
            split at h
            · exact absurd h (by simp)
            · rename_i v2 e2 hint
              have hext := B3fs.feed_proof_internal_extends algo true
                (B3fs.is_root true v) expected (codec.decode proof) _ v2
                (some e2) hint
              simp only [Option.some.injEq, Prod.mk.injEq] at h
              obtain ⟨h1, _⟩ := h
              obtain ⟨hcnt, ext, hstk⟩ := hext
              cases v with
              | mk pc cnt stk =>
                dsimp only at h1 hcnt hstk
                have htake : v2.stack.take stk.length = stk := by
                  rw [hstk]; exact List.take_left stk ext
                rw [← h1]
                simp only [B3fs.Verifier.mk.injEq]
                exact ⟨by trivial, hcnt, by simpa using htake⟩
            · rename_i v2 hint
              exact absurd h (by simp)
  | false =>
    unfold B3fs.feed_proof at h
    simp only [Bool.false_eq_true, if_false] at h
    split at h
    · simp only [Option.some.injEq, Prod.mk.injEq] at h
      exact h.1.symm
    · split at h
      · simp only [Option.some.injEq, Prod.mk.injEq] at h
        exact absurd h.2 (by simp)
      · split at h
        · simp only [Option.some.injEq, Prod.mk.injEq] at h
          exact h.1.symm
        · split at h
          · exact absurd h (by simp)
          · rename_i expected hlast
            split at h
            · exact absurd h (by simp)
            · rename_i v2 e2 hint
              have hext := B3fs.feed_proof_internal_extends algo false
                (B3fs.is_root false v) expected (codec.decode proof) _ v2
                (some e2) hint
              simp only [Option.some.injEq, Prod.mk.injEq] at h
              obtain ⟨h1, _⟩ := h
              obtain ⟨hcnt, ext, hstk⟩ := hext
              cases v with
              | mk pc cnt stk =>
                dsimp only at h1 hcnt hstk hlast
                have htake : v2.stack.take stk.dropLast.length =
                    stk.dropLast := by
                  rw [hstk]; exact List.take_left stk.dropLast ext
                rw [← h1]
                simp only [B3fs.Verifier.mk.injEq]
                refine ⟨by trivial, hcnt, ?_⟩
                rw [htake]
                exact List.dropLast_append_getLast? expected
                  (Option.mem_def.mpr hlast)
            · rename_i v2 hint
              exact absurd h (by simp)

/-- Witness for C4: a concrete hash-mismatch failure whose returned verifier
equals the pre-call verifier. -/
theorem feed_proof_error_rollback_witness :
    B3fs.feed_proof ⟨fun a b _ => a + b + 1⟩
      ⟨fun _ => true, fun _ => [(false, 5), (false, 6)]⟩ false
      ⟨0, 0, [99]⟩ [0] =
      some (⟨0, 0, [99]⟩, some (.hashMismatch 12 99)) ∧
    (⟨0, 0, [99]⟩ : B3fs.Verifier) = ⟨0, 0, [99]⟩ :=
  ⟨by decide,
   feed_proof_error_rollback ⟨fun a b _ => a + b + 1⟩
     ⟨fun _ => true, fun _ => [(false, 5), (false, 6)]⟩ false
     ⟨0, 0, [99]⟩ [0] ⟨0, 0, [99]⟩ (.hashMismatch 12 99) (by decide)⟩

/-- C6: the claim fails against the source and the code contradicts its own
documentation.  `store_mapping` writes the `uri_to_b3` entry under the
bincode-serialized *record* and stores the raw 32-byte hash as the value, while
`get_blake3_hash` looks up the bincode-serialized *pointer* and deserializes
the value as a full record; moreover only `pointers[0]` is ever passed to
`store_mapping`.  Hence after `publish(h, ps)` on a fresh database,
`get_blake3_hash` returns `none` for every pointer of `ps` — here evaluated at
a concrete two-pointer publication, repeated twice to cover the idempotence
wording as well. -/
theorem publish_get_blake3_hash_bug :
    (Resolver.get_blake3_hash ⟨0, [7]⟩
      (Resolver.publish (List.replicate 32 2) (List.replicate 32 1)
        [⟨0, [7]⟩, ⟨1, [9]⟩] Resolver.Db.empty).1 = none) ∧
    (Resolver.get_blake3_hash ⟨1, [9]⟩
      (Resolver.publish (List.replicate 32 2) (List.replicate 32 1)
        [⟨0, [7]⟩, ⟨1, [9]⟩] Resolver.Db.empty).1 = none) ∧
    (Resolver.get_blake3_hash ⟨0, [7]⟩
      (Resolver.publish (List.replicate 32 2) (List.replicate 32 1)
        [⟨0, [7]⟩, ⟨1, [9]⟩]
        (Resolver.publish (List.replicate 32 2) (List.replicate 32 1)
          [⟨0, [7]⟩, ⟨1, [9]⟩] Resolver.Db.empty).1).1 = none) := by
  refine ⟨?_, ?_, ?_⟩ <;> decide

/-- C9 as amended: a `JoinRequest{access_token}` is terminated with
`InvalidToken` if and only if the connection id decoded from the token's first
8 bytes is unknown, or the stored 48-byte token differs from the presented one,
or `now` is strictly greater than the connection's timeout; otherwise the
transport pair is forwarded to the existing proxy as a secondary
(non-primary) stream. -/
theorem handle_join_request_correct (conns : Handshake.ConnMap)
    (access_token : List Nat) (now : Nat) :
    (Handshake.handle_join_request conns access_token now = .terminated ↔
      (conns (Handshake.from_be_bytes (access_token.take 8)) = none ∨
        ∃ c, conns (Handshake.from_be_bytes (access_token.take 8)) = some c ∧
          (c.access_token ≠ access_token ∨ c.timeout < now))) ∧
    (∀ c, conns (Handshake.from_be_bytes (access_token.take 8)) = some c →
      c.access_token = access_token → now ≤ c.timeout →
      Handshake.handle_join_request conns access_token now =
        .forwarded (Handshake.from_be_bytes (access_token.take 8)) false) := by
  constructor
  · cases hc : conns (Handshake.from_be_bytes (access_token.take 8)) with
    | none => simp [Handshake.handle_join_request, hc]
    | some c =>
      by_cases ht : c.access_token = access_token
      · by_cases hn : c.timeout < now
        · simp [Handshake.handle_join_request, hc, ht, hn]
        · simp [Handshake.handle_join_request, hc, ht, hn]
      · simp [Handshake.handle_join_request, hc, ht]
  · intro c hc ht hn
    simp [Handshake.handle_join_request, hc, ht, Nat.not_lt.mpr hn]

/-- C1: a `ChangeEpoch{epoch}` transaction is accepted only from a current
committee member whose argument equals the current epoch; every other sender
or epoch value reverts and leaves the state untouched.  While the distinct
signalers stay below `⌊2·|C|/3⌋+1` the flag is `false` and the epoch
unchanged; the transaction at which the count reaches the threshold flags
`change_epoch = true` and advances the epoch by exactly one.  With committee
`[0,1,2,3]` the third distinct signal triggers the change. -/
theorem change_epoch_quorum_spec (s : App.EpochState) (sender epoch_arg : Nat) :
    ((App.change_epoch s sender epoch_arg).2.1 = .success →
      sender ∈ s.committee ∧ epoch_arg = s.epoch) ∧
    ((sender ∉ s.committee ∨ epoch_arg ≠ s.epoch) →
      ∃ err, App.change_epoch s sender epoch_arg = (s, .revert err, false)) ∧
    (sender ∈ s.committee → epoch_arg = s.epoch →
      (if sender ∈ s.signals then s.signals else s.signals ++ [sender]).length <
        App.epoch_change_threshold s.committee.length →
      App.change_epoch s sender epoch_arg =
        ({ s with signals := if sender ∈ s.signals then s.signals
                             else s.signals ++ [sender] }, .success, false)) ∧
    (sender ∈ s.committee → epoch_arg = s.epoch →
      App.epoch_change_threshold s.committee.length ≤
        (if sender ∈ s.signals then s.signals
         else s.signals ++ [sender]).length →
      App.change_epoch s sender epoch_arg =
        (⟨s.epoch + 1, s.committee, []⟩, .success, true)) ∧
    (App.execute_block ⟨⟨0, [0, 1, 2, 3], []⟩, [], []⟩
        [⟨0, 1, true, .changeEpoch 0⟩] =
      (⟨⟨0, [0, 1, 2, 3], [0]⟩, [(0, 1)], []⟩, [.success], false) ∧
    App.execute_block ⟨⟨0, [0, 1, 2, 3], [0]⟩, [(0, 1)], []⟩
        [⟨1, 1, true, .changeEpoch 0⟩] =
      (⟨⟨0, [0, 1, 2, 3], [0, 1]⟩, [(1, 1), (0, 1)], []⟩, [.success], false) ∧
    App.execute_block ⟨⟨0, [0, 1, 2, 3], [0, 1]⟩, [(1, 1), (0, 1)], []⟩
        [⟨2, 1, true, .changeEpoch 0⟩] =
      (⟨⟨1, [0, 1, 2, 3], []⟩, [(2, 1), (1, 1), (0, 1)], []⟩,
        [.success], true)) := by
  refine ⟨?_, ?_, ?_, ?_, by decide⟩
  · intro h
    by_cases hm : sender ∈ s.committee
    · by_cases hlt : epoch_arg < s.epoch
      · simp [App.change_epoch, hm, hlt] at h
      · by_cases hgt : s.epoch < epoch_arg
        · simp [App.change_epoch, hm, hlt, hgt] at h
        · exact ⟨hm, by omega⟩
    · simp [App.change_epoch, hm] at h
  · intro h
    by_cases hm : sender ∈ s.committee
    · have hne : epoch_arg ≠ s.epoch := h.resolve_left (by simp [hm])
      by_cases hlt : epoch_arg < s.epoch
      · exact ⟨.EpochAlreadyChanged, by simp [App.change_epoch, hm, hlt]⟩
      · have hgt : s.epoch < epoch_arg := by omega
        exact ⟨.EpochHasNotStarted,
          by simp [App.change_epoch, hm, hlt, hgt]⟩
    · exact ⟨.NotCommitteeMember, by simp [App.change_epoch, hm]⟩
  · intro hm he hlt
    subst he
    simp [App.change_epoch, hm, Nat.lt_irrefl, Nat.not_le.mpr hlt]
  · intro hm he hge
    subst he
    simp [App.change_epoch, hm, Nat.lt_irrefl, hge]

/-- Witness for C1 at concrete inputs: a non-member's signal reverts without
touching the state, and the third distinct signal of a four-node committee
advances the epoch. -/
theorem change_epoch_quorum_spec_witness :
    (∃ err, App.change_epoch ⟨0, [0, 1, 2, 3], []⟩ 7 0 =
      (⟨0, [0, 1, 2, 3], []⟩, .revert err, false)) ∧
    App.change_epoch ⟨0, [0, 1, 2, 3], [0, 1]⟩ 2 0 =
      (⟨1, [0, 1, 2, 3], []⟩, .success, true) :=
  ⟨(change_epoch_quorum_spec ⟨0, [0, 1, 2, 3], []⟩ 7 0).2.1
      (Or.inl (by decide)),
   (change_epoch_quorum_spec ⟨0, [0, 1, 2, 3], [0, 1]⟩ 2 0).2.2.2.1
      (by decide) rfl (by decide)⟩

/-- C3: the query runner's `validate_txn` returns exactly the receipt that
executing the transaction through the execution socket would produce at the
same snapshot, including revert receipts such as `EpochHasNotStarted`. -/
theorem validate_txn_matches_execution (s : App.AppState) (t : App.UpdateTxn) :
    App.validate_txn s t = (App.execute_txn s t).2.1 := by
  rcases t with ⟨sender, nonce, sv, m⟩
  cases sv with
  | false => simp [App.validate_txn, App.execute_txn]
  | true =>
    by_cases hn : nonce = App.getNonce s sender + 1
    · cases m with
      | deposit amount =>
        simp [App.validate_txn, App.execute_txn, hn]
      | changeEpoch e =>
        by_cases hm : sender ∈ s.es.committee
        · by_cases hlt : e < s.es.epoch
          · simp [App.validate_txn, App.execute_txn, App.change_epoch,
              App.setNonce, hn, hm, hlt]
          · by_cases hgt : s.es.epoch < e
            · simp [App.validate_txn, App.execute_txn, App.change_epoch,
                App.setNonce, hn, hm, hlt, hgt]
            · by_cases hth : App.epoch_change_threshold s.es.committee.length ≤
                  (if sender ∈ s.es.signals then s.es.signals
                   else s.es.signals ++ [sender]).length
              · simp [App.validate_txn, App.execute_txn, App.change_epoch,
                  App.setNonce, hn, hm, hlt, hgt, hth]
              · simp [App.validate_txn, App.execute_txn, App.change_epoch,
                  App.setNonce, hn, hm, hlt, hgt, hth]
        · simp [App.validate_txn, App.execute_txn, App.change_epoch,
            App.setNonce, hn, hm]
    · simp [App.validate_txn, App.execute_txn, hn]

theorem App.sum_div_le (d : Nat) :
    ∀ l : List Nat, (l.map (· / d)).sum ≤ l.sum / d := by
  intro l
  induction l with
  | nil => simp
  | cons a t ih =>
    simp only [List.map_cons, List.sum_cons]
    calc a / d + (t.map (· / d)).sum ≤ a / d + t.sum / d :=
          Nat.add_le_add_left ih _
      _ ≤ (a + t.sum) / d := Nat.add_div_le_add_div _ _ _

theorem App.div_sum_le (d : Nat) (hd : 0 < d) :
    ∀ l : List Nat, l ≠ [] →
      l.sum / d + 1 ≤ (l.map (· / d)).sum + l.length := by
  intro l
  induction l with
  | nil => intro h; cases h rfl
  | cons a t ih =>
    intro _
    cases t with
    | nil => simp
    | cons b t2 =>
      have ih2 := ih (by simp)
      have h2 : (a + (b :: t2).sum) / d ≤ a / d + (b :: t2).sum / d + 1 := by
        rw [Nat.add_div hd]
        split <;> simp
      simp only [List.sum_cons, List.map_cons, List.length_cons] at h2 ih2 ⊢
      omega

/-- The distributed amounts `N·wᵢ/W` over positive total weight `W = Σ wᵢ` sum
to at most `N` and fall short of `N` by less than the number of payees. -/
theorem App.map_mul_div_sum_bounds (N : Nat) (l : List Nat) (hl : 0 < l.sum) :
    (l.map fun w => N * w / l.sum).sum ≤ N ∧
    N + 1 ≤ (l.map fun w => N * w / l.sum).sum + l.length := by
  have hnil : l ≠ [] := by
    intro h; rw [h] at hl; simp at hl
  have hmap : (l.map fun w => N * w).sum = N * l.sum := by
    simpa using List.sum_map_mul_left l id N
  have hcomp : ((l.map fun w => N * w).map (· / l.sum)) =
      l.map fun w => N * w / l.sum := by
    rw [List.map_map]; rfl
  constructor
  · have h1 := App.sum_div_le l.sum (l.map fun w => N * w)
    rw [hcomp, hmap, Nat.mul_div_cancel N hl] at h1
    exact h1
  · have h1 := App.div_sum_le l.sum hl (l.map fun w => N * w) (by simp [hnil])
    rw [hcomp, hmap, Nat.mul_div_cancel N hl, List.length_map] at h1
    exact h1

theorem App.hpMul_share (E x : Nat) :
    App.hpMul E (App.share x) = E * x / 100 := by
  unfold App.hpMul App.share App.hpDiv App.hpU
  have h1 : x * 10 ^ 18 * 10 ^ 18 / (100 * 10 ^ 18) = x * 10 ^ 16 := by
    rw [Nat.mul_div_mul_right _ _ (by norm_num : 0 < (10 : Nat) ^ 18),
      Nat.mul_div_assoc x (by norm_num : (100 : Nat) ∣ 10 ^ 18)]
    norm_num
  rw [h1, ← Nat.mul_assoc,
    show (10 : Nat) ^ 18 = 100 * 10 ^ 16 by norm_num,
    Nat.mul_div_mul_right _ _ (by norm_num : 0 < (10 : Nat) ^ 16)]

theorem App.three_share_split (E ns ps ss : Nat) (hsum : ns + ps + ss = 100) :
    E * ns / 100 + E * ps / 100 + E * ss / 100 ≤ E ∧
    E ≤ E * ns / 100 + E * ps / 100 + E * ss / 100 + 2 := by
  have h1 := Nat.add_div_le_add_div (E * ns) (E * ps) 100
  have h2 := Nat.add_div_le_add_div (E * ns + E * ps) (E * ss) 100
  have h3 : (E * ns + E * ps + E * ss) / 100 = E := by
    rw [← Nat.mul_add, ← Nat.mul_add, hsum, Nat.mul_div_cancel E (by norm_num)]
  have hup : ∀ x y : Nat, (x + y) / 100 ≤ x / 100 + y / 100 + 1 := by
    intro x y
    rw [Nat.add_div (by norm_num : 0 < 100)]
    split <;> simp
  have h4 := hup (E * ns + E * ps) (E * ss)
  have h5 := hup (E * ns) (E * ps)
  omega

/-- C2: after the modelled reward distribution the total newly minted FLK
(nodes + protocol fund + service builders) never exceeds the epoch's
emissions and falls short of it by at most one fixed-point ULP per payee;
`total_supply` grows by exactly the minted total; and at the end of every
365th epoch `supply_year_start` is set to the new total supply, otherwise it
is unchanged. -/
theorem distribute_rewards_spec (p : App.RewardsParams)
    (ws cs : List Nat) (s : App.RewardsState)
    (hshare : p.node_share + p.protocol_share + p.service_builder_share = 100)
    (hw : 0 < ws.sum) (hc : 0 < cs.sum) :
    (App.distribute_rewards p ws cs s).2 ≤
      App.emissions p.max_inflation s.supply_year_start ∧
    App.emissions p.max_inflation s.supply_year_start ≤
      (App.distribute_rewards p ws cs s).2 +
        (ws.length + 1 + cs.length) ∧
    (App.distribute_rewards p ws cs s).1.total_supply =
      s.total_supply + (App.distribute_rewards p ws cs s).2 ∧
    ((s.epoch + 1) % 365 = 0 →
      (App.distribute_rewards p ws cs s).1.supply_year_start =
        (App.distribute_rewards p ws cs s).1.total_supply) ∧
    ((s.epoch + 1) % 365 ≠ 0 →
      (App.distribute_rewards p ws cs s).1.supply_year_start =
        s.supply_year_start) := by
  have hnode := App.map_mul_div_sum_bounds
    (App.hpMul (App.emissions p.max_inflation s.supply_year_start)
      (App.share p.node_share)) ws hw
  have hserv := App.map_mul_div_sum_bounds
    (App.hpMul (App.emissions p.max_inflation s.supply_year_start)
      (App.share p.service_builder_share)) cs hc
  have hshares := App.three_share_split
    (App.emissions p.max_inflation s.supply_year_start)
    p.node_share p.protocol_share p.service_builder_share hshare
  rw [App.hpMul_share] at hnode hserv
  refine ⟨?_, ?_, rfl, ?_, ?_⟩
  · simp only [App.distribute_rewards, App.node_rewards, App.service_rewards,
      App.hpMul_share]
    obtain ⟨ha, _⟩ := hnode
    obtain ⟨hb, _⟩ := hserv
    obtain ⟨hcc, _⟩ := hshares
    omega
  · simp only [App.distribute_rewards, App.node_rewards, App.service_rewards,
      App.hpMul_share]
    obtain ⟨_, ha⟩ := hnode
    obtain ⟨_, hb⟩ := hserv
    obtain ⟨_, hcc⟩ := hshares
    omega
  · intro h
    simp [App.distribute_rewards, h]
  · intro h
    simp [App.distribute_rewards, h]

/-- Witness for C2 at a concrete epoch: shares 80/10/10, node weights `[1,2]`,
one service with served `3`, year-start supply `365000` base units, emissions
`100`, minted `99`. -/
theorem distribute_rewards_spec_witness :
    (App.distribute_rewards ⟨10, 80, 10, 10⟩ [1, 2] [3] ⟨0, 0, 365000⟩).2 ≤
      App.emissions 10 365000 ∧
    App.emissions 10 365000 ≤
      (App.distribute_rewards ⟨10, 80, 10, 10⟩ [1, 2] [3] ⟨0, 0, 365000⟩).2 +
        (2 + 1 + 1) ∧
    (App.distribute_rewards ⟨10, 80, 10, 10⟩ [1, 2] [3]
        ⟨0, 0, 365000⟩).1.total_supply =
      0 + (App.distribute_rewards ⟨10, 80, 10, 10⟩ [1, 2] [3]
        ⟨0, 0, 365000⟩).2 ∧
    ((0 + 1) % 365 = 0 →
      (App.distribute_rewards ⟨10, 80, 10, 10⟩ [1, 2] [3]
          ⟨0, 0, 365000⟩).1.supply_year_start =
        (App.distribute_rewards ⟨10, 80, 10, 10⟩ [1, 2] [3]
          ⟨0, 0, 365000⟩).1.total_supply) ∧
    ((0 + 1) % 365 ≠ 0 →
      (App.distribute_rewards ⟨10, 80, 10, 10⟩ [1, 2] [3]
          ⟨0, 0, 365000⟩).1.supply_year_start = 365000) :=
  distribute_rewards_spec ⟨10, 80, 10, 10⟩ [1, 2] [3] ⟨0, 0, 365000⟩
    (by decide) (by decide) (by decide)

/-- Witness for C9's amended theorem: an unknown connection id is terminated,
and a matching, unexpired token is forwarded as a secondary stream. -/
theorem handle_join_request_correct_witness :
    (Handshake.handle_join_request (fun _ => none)
        (List.replicate 8 0 ++ List.replicate 40 3) 0 = .terminated) ∧
    Handshake.handle_join_request
      (fun k => if k = 0 then
        some ⟨List.replicate 8 0 ++ List.replicate 40 3, 700⟩ else none)
      (List.replicate 8 0 ++ List.replicate 40 3) 600 =
      .forwarded 0 false := by
  constructor
  · exact (handle_join_request_correct (fun _ => none)
      (List.replicate 8 0 ++ List.replicate 40 3) 0).1.mpr (Or.inl rfl)
  · exact (handle_join_request_correct _
      (List.replicate 8 0 ++ List.replicate 40 3) 600).2
      ⟨List.replicate 8 0 ++ List.replicate 40 3, 700⟩ (by decide) rfl (by decide)

end Lightning
